import Mathlib

/-!
Verification of the colormap-interval construction and the value-bucketing
rules of the 3DEP Lidar COG example notebook
(`datasets/3dep-lidar/3dep-lidar-cog-example.ipynb`).

Numeric samples are modelled as `FVal`: either an exact rational value, the
floating-point not-a-number marker, or a signed infinity.  This captures the
IEEE comparison semantics the notebook relies on (`NaN < x` and `NaN >= x`
are both false; `x / 0` is `NaN` for `x = 0` and a signed infinity
otherwise), while keeping all finite arithmetic exact.
-/

/-- A numeric sample: an exact rational, NaN, or a signed infinity
(`inf true` is `+∞`, `inf false` is `-∞`). -/
inductive FVal where
  | val : ℚ → FVal
  | nan : FVal
  | inf : Bool → FVal
deriving DecidableEq, Repr

/-- IEEE-style `<` on samples: any comparison involving NaN is false. -/
def flt : FVal → FVal → Bool
  | FVal.val a, FVal.val b => decide (a < b)
  | FVal.inf s, FVal.val _ => !s
  | FVal.val _, FVal.inf s => s
  | FVal.inf s, FVal.inf t => !s && t
  | _, _ => false

/-- IEEE-style `==` on samples: NaN is not equal to anything, itself included. -/
def feq : FVal → FVal → Bool
  | FVal.val a, FVal.val b => decide (a = b)
  | FVal.inf s, FVal.inf t => s == t
  | _, _ => false

/-- IEEE-style `<=`. -/
def fle (a b : FVal) : Bool := flt a b || feq a b

/-- IEEE-style `>`. -/
def fgt (a b : FVal) : Bool := flt b a

/-- IEEE-style `>=`. -/
def fge (a b : FVal) : Bool := fle b a

/-- The three per-dataset display policies applied by the notebook before
rendering a raster. -/
inductive Policy where
  | ClampLowHigh : ℚ → ℚ → Policy
  | MaskNonPositive : Policy
  | Identity : Policy
deriving DecidableEq, Repr

/-- One element of a raster under one policy.

* `ClampLowHigh lo hi` is the returns-raster code
  `np.putmask(ds, ds < lo, 0); np.putmask(ds, ds >= hi, hi)` — the two masks
  are applied in that order, the second one seeing the result of the first.
* `MaskNonPositive` is `ds = np.where(ds > 0, ds, np.nan)`.
* `Identity` is the intensity/HAG path, which displays the raster as is. -/
def bucketizeElem : Policy → FVal → FVal
  | Policy.ClampLowHigh lo hi, x =>
      let x1 := if flt x (FVal.val lo) then FVal.val 0 else x
      if fge x1 (FVal.val hi) then FVal.val hi else x1
  | Policy.MaskNonPositive, x => if fgt x (FVal.val 0) then x else FVal.nan
  | Policy.Identity, x => x

/-- The bucketizer applied element-wise to a raster (modelled as the list of
its samples; `np.putmask`/`np.where` broadcast element-wise with no
cross-element dependency). -/
def bucketize (p : Policy) (r : List FVal) : List FVal :=
  r.map (bucketizeElem p)

/-- An RGBA color; channels are modelled as exact rationals. -/
abbrev Color : Type := ℚ × ℚ × ℚ × ℚ

/-- An interval-color pair as supplied to the colormap builder: a numeric
range `(low, high)` and an RGBA color with 8-bit channels. -/
abbrev IntervalColorPair : Type := (ℚ × ℚ) × Color

/-- Division as numpy floats perform it: `x / 0` is NaN when `x = 0` and a
signed infinity otherwise (a RuntimeWarning, not an exception). -/
def fdiv (x d : ℚ) : FVal :=
  if d ≠ 0 then FVal.val (x / d)
  else if x = 0 then FVal.nan
  else FVal.inf (decide (0 < x))

/-- `nodes.min()` for the nonempty array `b :: rest`. -/
def listMin (b : ℚ) (rest : List ℚ) : ℚ := rest.foldl min b

/-- `nodes.max()` for the nonempty array `b :: rest`. -/
def listMax (b : ℚ) (rest : List ℚ) : ℚ := rest.foldl max b

/-- The notebook's node normalization:
`nodes = np.array([x[1] for x in intervals]).astype(float)` followed by
`nodes -= np.abs(nodes.min())` and `nodes /= nodes.max()` (the maximum being
taken after the subtraction). -/
def normalizeBounds : List ℚ → List FVal
  | [] => []
  | b :: rest =>
      let m := |listMin b rest|
      let shifted := (b :: rest).map (fun x => x - m)
      let mx := listMax (b - m) (rest.map (fun x => x - m))
      shifted.map (fun x => fdiv x mx)

/-- The bound the builder extracts from each pair: `x[1]`, the second
element of the pair's range, i.e. its upper bound. -/
def extractedBounds (ps : List IntervalColorPair) : List ℚ :=
  ps.map (fun p => p.1.2)

/-- The control positions the colormap builder hands to
`LinearSegmentedColormap.from_list`. -/
def buildNodes (ps : List IntervalColorPair) : List FVal :=
  normalizeBounds (extractedBounds ps)

/-- Modelled from the spec: the node positions as §4.1 describes them —
built from each pair's LOWER bound `b_i` (the first element of the range)
as `(b_i - min b) / (max b - min b)`.  Present only to compare the spec's
description against the source translation `buildNodes`. -/
def specLowerNodes (ps : List IntervalColorPair) : List FVal :=
  match ps.map (fun p => p.1.1) with
  | [] => []
  | b :: rest =>
      (b :: rest).map (fun v =>
        FVal.val ((v - listMin b rest) / (listMax b rest - listMin b rest)))

/-- `colors = [np.asarray(c) / 255 for c in colors]`. -/
def colorScale (c : Color) : Color :=
  (c.1 / 255, c.2.1 / 255, c.2.2.1 / 255, c.2.2.2 / 255)

/-- The rescaled color list of a pair list, in input order. -/
def colorsOf (ps : List IntervalColorPair) : List Color :=
  ps.map (fun p => colorScale p.2)

/-- The finite (non-NaN, non-infinite) node values, in order.  On a valid
build every node is finite and this is exactly the node list. -/
def valNodes (l : List FVal) : List ℚ :=
  l.filterMap (fun v => match v with | FVal.val q => some q | _ => none)

/-- The control points `from_list` receives: normalized positions zipped
with rescaled colors. -/
def colormapPts (ps : List IntervalColorPair) : List (ℚ × Color) :=
  (valNodes (buildNodes ps)).zip (colorsOf ps)

/-- Channel-wise linear interpolation between two colors. -/
def lerpC (c1 c2 : Color) (t : ℚ) : Color :=
  (c1.1 + t * (c2.1 - c1.1), c1.2.1 + t * (c2.2.1 - c1.2.1),
   c1.2.2.1 + t * (c2.2.2.1 - c1.2.2.1), c1.2.2.2 + t * (c2.2.2.2 - c1.2.2.2))

/-- Modelled from the spec: §4.1 step 4's piecewise-linear interpolation
with end clamping — the evaluation behavior of matplotlib's
`LinearSegmentedColormap` on the control points built above; that evaluation
code lives in matplotlib, outside this repository. -/
def interpEval : List (ℚ × Color) → ℚ → Color
  | [], _ => (0, 0, 0, 0)
  | [(_, c)], _ => c
  | (p1, c1) :: (p2, c2) :: rest, x =>
      if x ≤ p1 then c1
      else if x ≤ p2 then lerpC c1 c2 ((x - p1) / (p2 - p1))
      else interpEval ((p2, c2) :: rest) x

/-- Call-site frame model: each operation returns (result, state of the
caller's input after the call).  `np.putmask` writes through the array it is
given; `np.where` allocates a fresh array, and the builder never writes to
the pair list (`np.array([...])` copies before the in-place `-=` and `/=`). -/
def bucketizeCall (p : Policy) (r : List FVal) : List FVal × List FVal :=
  match p with
  | Policy.ClampLowHigh lo hi =>
      (bucketize (Policy.ClampLowHigh lo hi) r, bucketize (Policy.ClampLowHigh lo hi) r)
  | Policy.MaskNonPositive => (bucketize Policy.MaskNonPositive r, r)
  | Policy.Identity => (bucketize Policy.Identity r, r)

/-- Call-site frame model of the colormap builder. -/
def buildColormapCall (ps : List IntervalColorPair) : List FVal × List IntervalColorPair :=
  (buildNodes ps, ps)

/-- The interval-color pairs of the notebook's height-above-ground colormap. -/
def hagPairs : List IntervalColorPair :=
  [((-900, 1), (0, 0, 0, 0)), ((1, 2), (205, 224, 241, 255)),
   ((2, 3), (175, 209, 231, 255)), ((3, 4), (137, 190, 220, 255)),
   ((4, 5), (96, 166, 210, 255)), ((5, 6), (34, 114, 181, 255)),
   ((6, 7), (10, 84, 158, 255)), ((7, 100), (8, 48, 107, 255))]

/-- Three pairs whose lower and upper bounds disagree in a way that
separates the two candidate node rules. -/
def cexPairs : List IntervalColorPair :=
  [((0, 1), (0, 0, 0, 255)), ((1, 10), (1, 2, 3, 255)), ((10, 11), (4, 5, 6, 255))]

/-- Same upper bounds as `cexPairs`, different lower bounds and colors. -/
def cexPairsAltLow : List IntervalColorPair :=
  [((-50, 1), (9, 9, 9, 9)), ((0, 10), (8, 8, 8, 8)), ((5, 11), (7, 7, 7, 7))]

/-- Two pairs with identical extracted bounds (degenerate normalization). -/
def equalBoundsPairs : List IntervalColorPair :=
  [((0, 5), (0, 0, 0, 255)), ((1, 5), (10, 20, 30, 255))]

/-- Another degenerate pair list, for the amended-claim witness. -/
def equalBoundsPairs2 : List IntervalColorPair :=
  [((0, 2), (0, 0, 0, 255)), ((1, 2), (10, 20, 30, 255))]

theorem flt_val (a b : ℚ) : flt (FVal.val a) (FVal.val b) = decide (a < b) := rfl

theorem fge_val (a b : ℚ) : fge (FVal.val a) (FVal.val b) = decide (b ≤ a) := by
  simp only [fge, fle, flt, feq]
  by_cases h : b ≤ a
  · rcases lt_or_eq_of_le h with h' | h' <;> simp [h, h']
  · have h1 : ¬ b < a := fun hh => h (le_of_lt hh)
    have h2 : ¬ b = a := fun hh => h (le_of_eq hh)
    simp [h, h1, h2]

theorem fgt_val (a b : ℚ) : fgt (FVal.val a) (FVal.val b) = decide (b < a) := rfl

theorem clampElem17_val (x : ℚ) :
    bucketizeElem (Policy.ClampLowHigh 1 7) (FVal.val x) =
      if x < 1 then FVal.val 0 else if 7 ≤ x then FVal.val 7 else FVal.val x := by
  unfold bucketizeElem
  simp only [flt_val]
  by_cases h1 : x < 1
  · simp only [decide_eq_true_eq, if_pos h1]
    rw [fge_val]
    norm_num
  · simp only [decide_eq_true_eq, if_neg h1]
    rw [fge_val]
    by_cases h7 : 7 ≤ x
    · simp [h7]
    · simp [h7]

theorem maskElem_val (x : ℚ) :
    bucketizeElem Policy.MaskNonPositive (FVal.val x) =
      if x ≤ 0 then FVal.nan else FVal.val x := by
  simp only [bucketizeElem, fgt_val]
  by_cases h : x ≤ 0
  · simp [h, not_lt_of_le h]
  · simp [h, lt_of_not_le h]

/-- C4: under `ClampLowHigh 1 7`, every element `x < 1` becomes `0`, every
`x ≥ 7` becomes `7`, and `x ∈ [1,7)` passes through; the sample raster
`[-5, 0, 0.9, 1, 3, 6.9, 7, 50]` maps to `[0, 0, 0, 1, 3, 6.9, 7, 7]`. -/
theorem clampLowHigh_spec :
    (∀ x : ℚ, bucketizeElem (Policy.ClampLowHigh 1 7) (FVal.val x) =
        if x < 1 then FVal.val 0 else if 7 ≤ x then FVal.val 7 else FVal.val x) ∧
    bucketize (Policy.ClampLowHigh 1 7)
        ([-5, 0, 9/10, 1, 3, 69/10, 7, 50].map FVal.val) =
      [0, 0, 0, 1, 3, 69/10, 7, 7].map FVal.val := by
  refine ⟨clampElem17_val, ?_⟩
  simp only [bucketize, List.map_cons, List.map_nil, clampElem17_val]
  norm_num

/-- C5: under `MaskNonPositive`, every element `x ≤ 0` becomes NaN and every
`x > 0` passes through; the sample raster `[-1, 0, 0.001, 5]` maps to
`[NaN, NaN, 0.001, 5]`. -/
theorem maskNonPositive_spec :
    (∀ x : ℚ, bucketizeElem Policy.MaskNonPositive (FVal.val x) =
        if x ≤ 0 then FVal.nan else FVal.val x) ∧
    bucketize Policy.MaskNonPositive ([-1, 0, 1/1000, 5].map FVal.val) =
      [FVal.nan, FVal.nan, FVal.val (1/1000), FVal.val 5] := by
  refine ⟨maskElem_val, ?_⟩
  simp only [bucketize, List.map_cons, List.map_nil, maskElem_val]
  norm_num

theorem clampElem17_ninf :
    bucketizeElem (Policy.ClampLowHigh 1 7) (FVal.inf false) = FVal.val 0 := by
  unfold bucketizeElem
  simp only [flt, Bool.not_false, if_true]
  rw [fge_val]
  norm_num

theorem clampElem17_pinf :
    bucketizeElem (Policy.ClampLowHigh 1 7) (FVal.inf true) = FVal.val 7 := by
  unfold bucketizeElem
  simp [flt, fge, fle, feq]

theorem clampElem17_idem (x : FVal) :
    bucketizeElem (Policy.ClampLowHigh 1 7)
        (bucketizeElem (Policy.ClampLowHigh 1 7) x) =
      bucketizeElem (Policy.ClampLowHigh 1 7) x := by
  cases x with
  | val q =>
      rw [clampElem17_val]
      by_cases h1 : q < 1
      · rw [if_pos h1, clampElem17_val]
        norm_num
      · by_cases h7 : 7 ≤ q
        · rw [if_neg h1, if_pos h7, clampElem17_val]
          norm_num
        · rw [if_neg h1, if_neg h7, clampElem17_val, if_neg h1, if_neg h7]
  | nan => rfl
  | inf s =>
      cases s
      · rw [clampElem17_ninf, clampElem17_val]
        norm_num
      · rw [clampElem17_pinf, clampElem17_val]
        norm_num

theorem maskElem_idem (x : FVal) :
    bucketizeElem Policy.MaskNonPositive (bucketizeElem Policy.MaskNonPositive x) =
      bucketizeElem Policy.MaskNonPositive x := by
  cases x with
  | val q =>
      rw [maskElem_val]
      by_cases h : q ≤ 0
      · rw [if_pos h]
        rfl
      · rw [if_neg h, maskElem_val, if_neg h]
  | nan => rfl
  | inf s => cases s <;> rfl

/-- C6: applying `bucketize` twice with the same policy yields the same
result as applying it once, for each of the three policies
`ClampLowHigh 1 7`, `MaskNonPositive` and `Identity`, on every raster. -/
theorem bucketize_idempotent :
    (∀ r : List FVal,
        bucketize (Policy.ClampLowHigh 1 7) (bucketize (Policy.ClampLowHigh 1 7) r) =
          bucketize (Policy.ClampLowHigh 1 7) r) ∧
    (∀ r : List FVal,
        bucketize Policy.MaskNonPositive (bucketize Policy.MaskNonPositive r) =
          bucketize Policy.MaskNonPositive r) ∧
    (∀ r : List FVal,
        bucketize Policy.Identity (bucketize Policy.Identity r) =
          bucketize Policy.Identity r) := by
  refine ⟨?_, ?_, ?_⟩ <;> intro r <;>
    simp only [bucketize, List.map_map] <;>
    apply List.map_congr_left <;> intro x _ <;>
    simp only [Function.comp_apply]
  · exact clampElem17_idem x
  · exact maskElem_idem x
  · rfl

/-- C9: a NaN raster element passes through `ClampLowHigh 1 7` unchanged,
because `NaN < 1` and `NaN >= 7` both evaluate to false, so neither
`putmask` replacement fires on it. -/
theorem clamp_preserves_nan (r : List FVal) (i : ℕ)
    (h : r[i]? = some FVal.nan) :
    (bucketize (Policy.ClampLowHigh 1 7) r)[i]? = some FVal.nan ∧
    flt FVal.nan (FVal.val 1) = false ∧ fge FVal.nan (FVal.val 7) = false := by
  refine ⟨?_, rfl, rfl⟩
  simp only [bucketize, List.getElem?_map, h, Option.map_some']
  rfl

theorem clamp_preserves_nan_witness :
    (bucketize (Policy.ClampLowHigh 1 7) [FVal.val 1, FVal.nan])[1]? = some FVal.nan ∧
    flt FVal.nan (FVal.val 1) = false ∧ fge FVal.nan (FVal.val 7) = false :=
  clamp_preserves_nan [FVal.val 1, FVal.nan] 1 rfl

/-- C10: on a raster of integer samples, `MaskNonPositive` produces a raster
in the NaN-capable sample type (the no-data sentinel requires it): each
positive integer comes out as its exact embedded value and each non-positive
integer becomes NaN. -/
theorem mask_int_raster_float :
    ∀ r : List ℤ,
      bucketize Policy.MaskNonPositive (r.map (fun n => FVal.val (n : ℚ))) =
        r.map (fun n => if 0 < n then FVal.val (n : ℚ) else FVal.nan) := by
  intro r
  simp only [bucketize, List.map_map]
  apply List.map_congr_left
  intro n _
  simp only [Function.comp_apply, maskElem_val, Int.cast_nonpos]
  by_cases h : 0 < n
  · rw [if_neg (not_le.mpr h), if_pos h]
  · rw [if_pos (not_lt.mp h), if_neg h]

theorem foldl_min_le_init (l : List ℚ) : ∀ a : ℚ, l.foldl min a ≤ a := by
  induction l with
  | nil => intro a; exact le_refl a
  | cons x l ih => intro a; exact le_trans (ih (min a x)) (min_le_left a x)

theorem foldl_min_le_mem (l : List ℚ) : ∀ a x : ℚ, x ∈ l → l.foldl min a ≤ x := by
  induction l with
  | nil => intro a x h; exact absurd h (List.not_mem_nil x)
  | cons y l ih =>
      intro a x h
      rcases List.mem_cons.mp h with rfl | h2
      · exact le_trans (foldl_min_le_init l (min a x)) (min_le_right a x)
      · exact ih (min a y) x h2

theorem le_foldl_max_init (l : List ℚ) : ∀ a : ℚ, a ≤ l.foldl max a := by
  induction l with
  | nil => intro a; exact le_refl a
  | cons x l ih => intro a; exact le_trans (le_max_left a x) (ih (max a x))

theorem le_foldl_max_mem (l : List ℚ) : ∀ a x : ℚ, x ∈ l → x ≤ l.foldl max a := by
  induction l with
  | nil => intro a x h; exact absurd h (List.not_mem_nil x)
  | cons y l ih =>
      intro a x h
      rcases List.mem_cons.mp h with rfl | h2
      · exact le_trans (le_max_right a x) (le_foldl_max_init l (max a x))
      · exact ih (max a y) x h2

theorem le_foldl_min (l : List ℚ) :
    ∀ a c : ℚ, c ≤ a → (∀ x ∈ l, c ≤ x) → c ≤ l.foldl min a := by
  induction l with
  | nil => intro a c h _; exact h
  | cons y l ih =>
      intro a c h hall
      exact ih (min a y) c (le_min h (hall y (List.mem_cons_self y l)))
        (fun x hx => hall x (List.mem_cons_of_mem y hx))

theorem foldl_max_sub (l : List ℚ) :
    ∀ a c : ℚ, (l.map (fun x => x - c)).foldl max (a - c) = l.foldl max a - c := by
  induction l with
  | nil => intro a c; rfl
  | cons y l ih =>
      intro a c
      simp only [List.map_cons, List.foldl_cons]
      rw [max_sub_sub_right a y c]
      exact ih (max a y) c

theorem foldl_min_replicate (b : ℚ) : ∀ n : ℕ, (List.replicate n b).foldl min b = b := by
  intro n
  induction n with
  | zero => rfl
  | succ k ih =>
      rw [List.replicate_succ, List.foldl_cons, min_self]
      exact ih

theorem foldl_max_replicate (b : ℚ) : ∀ n : ℕ, (List.replicate n b).foldl max b = b := by
  intro n
  induction n with
  | zero => rfl
  | succ k ih =>
      rw [List.replicate_succ, List.foldl_cons, max_self]
      exact ih

theorem listMin_le_of_mem (b x : ℚ) (rest : List ℚ) (h : x ∈ b :: rest) :
    listMin b rest ≤ x := by
  rcases List.mem_cons.mp h with rfl | h2
  · exact foldl_min_le_init rest x
  · exact foldl_min_le_mem rest b x h2

theorem le_listMax_of_mem (b x : ℚ) (rest : List ℚ) (h : x ∈ b :: rest) :
    x ≤ listMax b rest := by
  rcases List.mem_cons.mp h with rfl | h2
  · exact le_foldl_max_init rest x
  · exact le_foldl_max_mem rest b x h2

/-- C1 counterexample: on three pairs with ranges `(0,1), (1,10), (10,11)`
the builder's positions are `[0, 9/10, 1]`, computed from the upper bounds
`[1, 10, 11]`; the spec's lower-bound rule would give `[0, 1/10, 1]`. -/
theorem buildNodes_uses_upper_cex :
    buildNodes cexPairs = [FVal.val 0, FVal.val (9/10), FVal.val 1] ∧
    specLowerNodes cexPairs = [FVal.val 0, FVal.val (1/10), FVal.val 1] ∧
    buildNodes cexPairs ≠ specLowerNodes cexPairs := by
  have h1 : buildNodes cexPairs = [FVal.val 0, FVal.val (9/10), FVal.val 1] := by
    norm_num [buildNodes, extractedBounds, normalizeBounds, cexPairs, listMin, listMax,
      fdiv, min_def, max_def, abs_of_nonneg]
  have h2 : specLowerNodes cexPairs = [FVal.val 0, FVal.val (1/10), FVal.val 1] := by
    norm_num [specLowerNodes, cexPairs, listMin, listMax, min_def, max_def]
  refine ⟨h1, h2, ?_⟩
  rw [h1, h2]
  norm_num

/-- C1 (amended): the builder's control positions are derived from each
pair's upper bound (the second element of the range), taken in input order;
the lower bounds and colors never participate, so any two pair lists with
the same upper bounds produce identical positions. -/
theorem buildNodes_from_upper (ps qs : List IntervalColorPair)
    (h : ps.map (fun p => p.1.2) = qs.map (fun p => p.1.2)) :
    buildNodes ps = normalizeBounds (ps.map (fun p => p.1.2)) ∧
    buildNodes ps = buildNodes qs := by
  constructor
  · rfl
  · unfold buildNodes extractedBounds
    rw [h]

theorem buildNodes_from_upper_witness :
    buildNodes cexPairs = normalizeBounds (cexPairs.map (fun p => p.1.2)) ∧
    buildNodes cexPairs = buildNodes cexPairsAltLow :=
  buildNodes_from_upper cexPairs cexPairsAltLow rfl

/-- C3 counterexample: with two pairs whose extracted bounds are both `5`
the builder does not fail — the code contains no validation and no
`InvalidInputError`; the normalization divides `0` by `0` and construction
completes with NaN positions. -/
theorem buildNodes_equal_bounds_cex :
    buildNodes equalBoundsPairs = [FVal.nan, FVal.nan] := by
  norm_num [buildNodes, extractedBounds, normalizeBounds, equalBoundsPairs, listMin, listMax,
    fdiv, min_def, max_def, abs_of_nonneg]

/-- C3 (amended): the builder has no error path of its own: when all
extracted bounds are equal to a common nonnegative value (the single-pair
case included), normalization computes `0 / 0` and every produced node
position is NaN — construction completes instead of raising. -/
theorem buildNodes_equal_bounds_nan (ps : List IntervalColorPair) (b : ℚ)
    (hb : 0 ≤ b) (h : extractedBounds ps = List.replicate ps.length b) :
    buildNodes ps = List.replicate ps.length FVal.nan := by
  unfold buildNodes
  rw [h]
  cases hn : ps.length with
  | zero => rfl
  | succ n =>
      rw [List.replicate_succ]
      show ((b :: List.replicate n b).map (fun x => x - |listMin b (List.replicate n b)|)).map
          (fun x => fdiv x (listMax (b - |listMin b (List.replicate n b)|)
            ((List.replicate n b).map (fun x => x - |listMin b (List.replicate n b)|)))) =
        List.replicate (n + 1) FVal.nan
      have hm : listMin b (List.replicate n b) = b := foldl_min_replicate b n
      rw [hm, abs_of_nonneg hb, sub_self, List.map_replicate, sub_self]
      have hsh : (b :: List.replicate n b).map (fun x => x - b) = List.replicate (n + 1) (0:ℚ) := by
        rw [← List.replicate_succ, List.map_replicate, sub_self]
      rw [hsh, List.map_replicate]
      have hmx : listMax 0 (List.replicate n (0:ℚ)) = 0 := foldl_max_replicate 0 n
      rw [hmx]
      have hdz : fdiv 0 0 = FVal.nan := by simp [fdiv]
      rw [hdz]

theorem buildNodes_equal_bounds_nan_witness :
    buildNodes equalBoundsPairs2 = List.replicate equalBoundsPairs2.length FVal.nan :=
  buildNodes_equal_bounds_nan equalBoundsPairs2 2 (by norm_num) rfl

/-- C8 counterexample: `bucketize` under `ClampLowHigh 1 7` writes through
the caller's raster via `np.putmask` — after the call on `[50]` the caller's
array holds `[7]`, not the original `[50]`. -/
theorem clamp_mutates_input_cex :
    (bucketizeCall (Policy.ClampLowHigh 1 7) [FVal.val 50]).2 ≠ [FVal.val 50] := by
  simp only [bucketizeCall, bucketize, List.map_cons, List.map_nil, clampElem17_val]
  norm_num

/-- C8 (amended): `bucketize` under `MaskNonPositive` and `Identity`, and
the colormap builder, leave the caller's inputs unchanged; under
`ClampLowHigh` the `np.putmask` calls update the caller's raster in place,
so after the call it equals the returned result. -/
theorem call_frame_effects :
    (∀ r : List FVal, (bucketizeCall Policy.MaskNonPositive r).2 = r) ∧
    (∀ r : List FVal, (bucketizeCall Policy.Identity r).2 = r) ∧
    (∀ (lo hi : ℚ) (r : List FVal),
        (bucketizeCall (Policy.ClampLowHigh lo hi) r).2 =
          (bucketizeCall (Policy.ClampLowHigh lo hi) r).1) ∧
    (∀ ps : List IntervalColorPair, (buildColormapCall ps).2 = ps) :=
  ⟨fun _ => rfl, fun _ => rfl, fun _ _ _ => rfl, fun _ => rfl⟩

/-- C2 counterexample: on the bound sequence `[-1, 3]` the code subtracts
`|min| = 1` and divides by the shifted maximum `2`, producing `-1` for the
first position — not the claimed `((-1) - min) / (max - min) = 0` — and
`-1` lies outside `[0, 1]`. -/
theorem normalizeBounds_negative_cex :
    normalizeBounds [-1, 3] = [FVal.val (-1), FVal.val 1] ∧
    ((-1 : ℚ) - listMin (-1) [3]) / (listMax (-1) [3] - listMin (-1) [3]) = 0 ∧
    ¬ (0 : ℚ) ≤ -1 := by
  refine ⟨?_, ?_, by norm_num⟩
  · norm_num [normalizeBounds, listMin, listMax, fdiv, min_def, max_def, abs_of_nonpos]
  · norm_num [listMin, listMax, min_def, max_def]

/-- C2 (amended): when all bounds are nonnegative (N ≥ 2, not all equal),
each produced position equals `(b_i - min b) / (max b - min b)` in input
order, every position lies in `[0, 1]`, and the positions are monotonically
non-decreasing when the bounds are sorted ascending.  (With a negative
minimum the code computes `(b_i - |min b|) / (max b - |min b|)` instead,
per the counterexample.) -/
theorem normalizeBounds_nonneg_spec (b : ℚ) (rest : List ℚ)
    (hpos : ∀ x ∈ b :: rest, 0 ≤ x)
    (x y : ℚ) (hx : x ∈ b :: rest) (hy : y ∈ b :: rest) (hxy : x ≠ y) :
    normalizeBounds (b :: rest) =
      (b :: rest).map (fun v =>
        FVal.val ((v - listMin b rest) / (listMax b rest - listMin b rest))) ∧
    (∀ v ∈ b :: rest,
        0 ≤ (v - listMin b rest) / (listMax b rest - listMin b rest) ∧
        (v - listMin b rest) / (listMax b rest - listMin b rest) ≤ 1) ∧
    ((b :: rest).Chain' (· ≤ ·) →
      ((b :: rest).map
          (fun v => (v - listMin b rest) / (listMax b rest - listMin b rest))).Chain'
        (· ≤ ·)) := by
  have hm0 : 0 ≤ listMin b rest :=
    le_foldl_min rest b 0 (hpos b (List.mem_cons_self b rest))
      (fun z hz => hpos z (List.mem_cons_of_mem b hz))
  have habs : |listMin b rest| = listMin b rest := abs_of_nonneg hm0
  have hmM : listMin b rest < listMax b rest := by
    rcases lt_or_gt_of_ne hxy with h | h
    · exact lt_of_le_of_lt (listMin_le_of_mem b x rest hx)
        (lt_of_lt_of_le h (le_listMax_of_mem b y rest hy))
    · exact lt_of_le_of_lt (listMin_le_of_mem b y rest hy)
        (lt_of_lt_of_le h (le_listMax_of_mem b x rest hx))
  have hd : (0:ℚ) < listMax b rest - listMin b rest := sub_pos.mpr hmM
  refine ⟨?_, ?_, ?_⟩
  · show ((b :: rest).map (fun v => v - |listMin b rest|)).map
        (fun v => fdiv v (listMax (b - |listMin b rest|)
          (rest.map (fun v => v - |listMin b rest|)))) = _
    rw [habs]
    have hmx : listMax (b - listMin b rest) (rest.map (fun v => v - listMin b rest)) =
        listMax b rest - listMin b rest := foldl_max_sub rest b (listMin b rest)
    rw [hmx, List.map_map]
    apply List.map_congr_left
    intro v _
    simp only [Function.comp_apply, fdiv, if_pos (ne_of_gt hd)]
  · intro v hv
    constructor
    · exact div_nonneg (sub_nonneg.mpr (listMin_le_of_mem b v rest hv)) (le_of_lt hd)
    · exact (div_le_one hd).mpr (sub_le_sub_right (le_listMax_of_mem b v rest hv) _)
  · intro hchain
    rw [List.chain'_map]
    refine hchain.imp ?_
    intro u w huw
    exact (div_le_div_iff_of_pos_right hd).mpr (sub_le_sub_right huw _)

theorem normalizeBounds_nonneg_spec_witness :
    normalizeBounds [1, 2, 4] = [FVal.val 0, FVal.val (1/3), FVal.val 1] := by
  have h := normalizeBounds_nonneg_spec 1 [2, 4]
    (by intro z hz; fin_cases hz <;> norm_num) 1 2
    (by simp) (by simp) (by norm_num)
  rw [h.1]
  norm_num [listMin, listMax, min_def, max_def]

theorem interpEval_cons_cons (p1 : ℚ) (c1 : Color) (p2 : ℚ) (c2 : Color)
    (rest : List (ℚ × Color)) (x : ℚ) :
    interpEval ((p1, c1) :: (p2, c2) :: rest) x =
      if x ≤ p1 then c1
      else if x ≤ p2 then lerpC c1 c2 ((x - p1) / (p2 - p1))
      else interpEval ((p2, c2) :: rest) x := by
  simp only [interpEval]

theorem lerpC_one (c1 c2 : Color) : lerpC c1 c2 1 = c2 := by
  obtain ⟨r1, g1, b1, a1⟩ := c1
  obtain ⟨r2, g2, b2, a2⟩ := c2
  simp only [lerpC, Prod.mk.injEq]
  refine ⟨by ring, by ring, by ring, by ring⟩

theorem interpEval_clamp_low (p0 : ℚ) (c0 : Color) (rest : List (ℚ × Color)) (x : ℚ)
    (hx : x ≤ p0) : interpEval ((p0, c0) :: rest) x = c0 := by
  cases rest with
  | nil => rfl
  | cons q rest' =>
      obtain ⟨p2, c2⟩ := q
      simp only [interpEval, if_pos hx]

theorem head_pos_le_last_pos :
    ∀ (pts : List (ℚ × Color)) (p : ℚ) (c : Color) (pN : ℚ) (cN : Color),
      (pts.map Prod.fst).Chain' (· < ·) →
      pts.head? = some (p, c) → pts.getLast? = some (pN, cN) → p ≤ pN
  | [], _, _, _, _, _, hh, _ => by cases hh
  | [(q, d)], p, c, pN, cN, _, hh, hl => by
      simp only [List.head?_cons, Option.some.injEq, Prod.mk.injEq] at hh
      have hl' : (q, d) = (pN, cN) := by
        have : ([(q, d)] : List (ℚ × Color)).getLast? = some (q, d) := rfl
        rw [this] at hl
        exact Option.some.inj hl
      rw [← hh.1]
      exact le_of_eq ((Prod.mk.injEq q d pN cN).mp hl').1
  | (q1, d1) :: (q2, d2) :: rest, p, c, pN, cN, hchain, hh, hl => by
      simp only [List.head?_cons, Option.some.injEq, Prod.mk.injEq] at hh
      have hmap : (((q1, d1) :: (q2, d2) :: rest).map Prod.fst) =
          q1 :: q2 :: rest.map Prod.fst := rfl
      rw [hmap] at hchain
      have hc := List.chain'_cons.mp hchain
      have hl' : ((q2, d2) :: rest).getLast? = some (pN, cN) := by
        rw [List.getLast?_cons_cons] at hl
        exact hl
      have h2N : q2 ≤ pN :=
        head_pos_le_last_pos ((q2, d2) :: rest) q2 d2 pN cN hc.2 rfl hl'
      rw [← hh.1]
      exact le_trans (le_of_lt hc.1) h2N

theorem interpEval_clamp_high :
    ∀ (pts : List (ℚ × Color)) (pN : ℚ) (cN : Color),
      (pts.map Prod.fst).Chain' (· < ·) →
      pts.getLast? = some (pN, cN) →
      ∀ x : ℚ, pN ≤ x → interpEval pts x = cN
  | [], _, _, _, hl, _, _ => by cases hl
  | [(q, d)], pN, cN, _, hl, x, hx => by
      have : ([(q, d)] : List (ℚ × Color)).getLast? = some (q, d) := rfl
      rw [this] at hl
      have hqd := Option.some.inj hl
      show d = cN
      exact ((Prod.mk.injEq q d pN cN).mp hqd).2
  | (q1, d1) :: (q2, d2) :: rest, pN, cN, hchain, hl, x, hx => by
      have hmap : (((q1, d1) :: (q2, d2) :: rest).map Prod.fst) =
          q1 :: q2 :: rest.map Prod.fst := rfl
      rw [hmap] at hchain
      have hc := List.chain'_cons.mp hchain
      have hl' : ((q2, d2) :: rest).getLast? = some (pN, cN) := by
        rw [List.getLast?_cons_cons] at hl
        exact hl
      have h2N : q2 ≤ pN :=
        head_pos_le_last_pos ((q2, d2) :: rest) q2 d2 pN cN hc.2 rfl hl'
      have hx1 : ¬ x ≤ q1 := not_le.mpr (lt_of_lt_of_le hc.1 (le_trans h2N hx))
      cases rest with
      | nil =>
          have : ([(q2, d2)] : List (ℚ × Color)).getLast? = some (q2, d2) := rfl
          rw [this] at hl'
          have hqd := (Prod.mk.injEq q2 d2 pN cN).mp (Option.some.inj hl')
          by_cases hx2 : x ≤ q2
          · have hxq : x = q2 := le_antisymm hx2 (hqd.1 ▸ hx)
            simp only [interpEval, if_neg hx1, if_pos hx2]
            rw [hxq, div_self (ne_of_gt (sub_pos.mpr hc.1)), lerpC_one]
            exact hqd.2
          · simp only [interpEval, if_neg hx1, if_neg hx2]
            exact hqd.2
      | cons r3 rest' =>
          obtain ⟨p3, c3⟩ := r3
          have hcc := List.chain'_cons.mp hc.2
          have hl'' : ((p3, c3) :: rest').getLast? = some (pN, cN) := by
            rw [List.getLast?_cons_cons] at hl'
            exact hl'
          have h3N : p3 ≤ pN :=
            head_pos_le_last_pos ((p3, c3) :: rest') p3 c3 pN cN hcc.2 rfl hl''
          have hx2 : ¬ x ≤ q2 := not_le.mpr (lt_of_lt_of_le hcc.1 (le_trans h3N hx))
          rw [interpEval_cons_cons, if_neg hx1, if_neg hx2]
          exact interpEval_clamp_high ((q2, d2) :: (p3, c3) :: rest') pN cN hc.2 hl' x hx

/-- C7: for a valid build — strictly increasing control positions running
from 0 to 1, as `LinearSegmentedColormap` requires of sorted pairs — the
colormap evaluates to the first control point's rescaled color at position 0
and at any query below it, and to the last control point's rescaled color at
position 1 and at any query above it: clamped, never extrapolated. -/
theorem colormap_endpoint_clamp (ps : List IntervalColorPair) (c0 cN : Color)
    (hmono : ((colormapPts ps).map Prod.fst).Chain' (· < ·))
    (h0 : (colormapPts ps).head? = some (0, c0))
    (hN : (colormapPts ps).getLast? = some (1, cN)) :
    (∀ x : ℚ, x ≤ 0 → interpEval (colormapPts ps) x = c0) ∧
    (∀ x : ℚ, 1 ≤ x → interpEval (colormapPts ps) x = cN) := by
  constructor
  · intro x hx
    cases hpts : colormapPts ps with
    | nil => rw [hpts] at h0; cases h0
    | cons a rest =>
        rw [hpts] at h0
        simp only [List.head?_cons, Option.some.injEq] at h0
        rw [h0]
        exact interpEval_clamp_low 0 c0 rest x hx
  · intro x hx
    exact interpEval_clamp_high (colormapPts ps) 1 cN hmono hN x hx

theorem colormap_endpoint_clamp_witness :
    interpEval (colormapPts hagPairs) (-2) = (0, 0, 0, 0) ∧
    interpEval (colormapPts hagPairs) 0 = (0, 0, 0, 0) ∧
    interpEval (colormapPts hagPairs) 1 = (8/255, 48/255, 107/255, 1) ∧
    interpEval (colormapPts hagPairs) (3/2) = (8/255, 48/255, 107/255, 1) := by
  have hpts : colormapPts hagPairs =
      [(0, (0, 0, 0, 0)), (1/99, (205/255, 224/255, 241/255, 1)),
       (2/99, (175/255, 209/255, 231/255, 1)), (3/99, (137/255, 190/255, 220/255, 1)),
       (4/99, (96/255, 166/255, 210/255, 1)), (5/99, (34/255, 114/255, 181/255, 1)),
       (6/99, (10/255, 84/255, 158/255, 1)), (1, (8/255, 48/255, 107/255, 1))] := by
    norm_num [colormapPts, hagPairs, buildNodes, extractedBounds, normalizeBounds,
      valNodes, colorsOf, colorScale, listMin, listMax, fdiv, min_def, max_def,
      abs_of_nonneg, List.filterMap, List.zip_cons_cons]
  have h := colormap_endpoint_clamp hagPairs (0, 0, 0, 0) (8/255, 48/255, 107/255, 1)
    (by rw [hpts]; norm_num [List.chain'_cons, List.chain'_singleton])
    (by rw [hpts]; rfl)
    (by rw [hpts]; rfl)
  exact ⟨h.1 (-2) (by norm_num), h.1 0 le_rfl, h.2 1 le_rfl, h.2 (3/2) (by norm_num)⟩
